import Mathlib

/-!
Shallow embedding of the multi-source result aggregation pipeline of the
AgentsToAllies repository (route → fan-out fetch → deduplicate → summarize),
covering:

  * src/news/src/utils/dedup.py                 (dedup_articles, _norm_title)
  * src/job_recommendation_maf/src/utils/dedup.py      (deduplicate_jobs)
  * src/job_recommendation/src/utils/dedup_utils.py    (deduplicate_jobs)
  * src/news/src/agents/router_agent.py                (route_categories)
  * src/news_maf/src/agents/router_agent.py            (route_categories)
  * src/news_maf/src/agents/query_classifier_agent.py  (classify_query)
  * src/news/src/orchestration/pro_orchestrator.py     (ProNewsOrchestrator.run)
  * src/news/src/orchestration/concurrent_orchestrator.py
  * src/news_maf/src/orchestration/sequential_orchestrator.py
  * src/news/src/plugins/news_plugin.py                (fetch_top_headlines)
  * src/job_recommendation_maf/src/plugins/job_board_plugin.py (search_jobs)
  * src/job_recommendation/src/plugins/job_board_plugin.py     (search_jobs)

Python string primitives (strip, lower, rstrip, split) are modelled over
`List Char`; external collaborators (the LLM call, the HTTP search call,
json.loads of the raw response) are modelled by enumerating their possible
outcomes as inductive types, so every pure post-processing function of the
source is a total computable Lean function of those outcomes.
-/

namespace A2A

/-- Whitespace characters recognised by Python's default `str.strip` /
`str.split` for the ASCII range (space, tab, LF, CR, VT, FF). -/
def pyIsSpace (c : Char) : Bool :=
  c = ' ' || c = '\t' || c = '\n' || c = '\r' || c.toNat = 11 || c.toNat = 12

/-- Python `str.strip()` on the character-list view of a string. -/
def pyStripL (l : List Char) : List Char :=
  ((l.dropWhile pyIsSpace).reverse.dropWhile pyIsSpace).reverse

/-- Python `str.strip()`. -/
def pyStrip (s : String) : String := String.mk (pyStripL s.data)

/-- Python `str.lower()` (ASCII case folding, as all vocabulary/keys here are ASCII). -/
def pyLower (s : String) : String := String.mk (s.data.map Char.toLower)

/-- Python `str.rstrip(chars)`: drop trailing characters belonging to `cs`. -/
def pyRstrip (s : String) (cs : List Char) : String :=
  String.mk ((s.data.reverse.dropWhile (fun c => cs.contains c)).reverse)

/-- A news article record (`Dict[str, Any]` in the source, restricted to the
string fields the pipeline reads; a missing key is `none`). -/
structure Article where
  url : Option String
  title : Option String
  author : Option String
  source : Option String
  category : Option String
  description : Option String
  deriving DecidableEq, Repr

/-- `_norm_title` of src/news/src/utils/dedup.py:
`(t or "").strip().lower().rstrip(".-!?$")`. -/
def normTitle (t : Option String) : String :=
  pyRstrip (pyLower (pyStrip (t.getD ""))) ['.', '-', '!', '?', '$']

/-- The URL key computed inside `dedup_articles`: `(a.get("url") or "").strip()`. -/
def urlKey (a : Article) : String := pyStrip (a.url.getD "")

/-- The title key computed inside `dedup_articles`: `_norm_title(a.get("title"))`. -/
def titleKey (a : Article) : String := normTitle a.title

/-- The loop of `dedup_articles` (src/news/src/utils/dedup.py), with the two
`seen` sets made explicit accumulators.  Mirrors the source line by line:
skip when both keys are empty, skip on a seen non-empty url, skip on a seen
non-empty title, otherwise record both keys (even an empty one, as
`set.add` in the source does) and keep the record. -/
def dedupAux (seenUrls seenTitles : List String) : List Article → List Article
  | [] => []
  | a :: rest =>
    let url := urlKey a
    let title := titleKey a
    if title = "" ∧ url = "" then
      dedupAux seenUrls seenTitles rest
    else if url ≠ "" ∧ url ∈ seenUrls then
      dedupAux seenUrls seenTitles rest
    else if title ≠ "" ∧ title ∈ seenTitles then
      dedupAux seenUrls seenTitles rest
    else
      a :: dedupAux (url :: seenUrls) (title :: seenTitles) rest

/-- `dedup_articles` of src/news/src/utils/dedup.py. -/
def dedup_articles (articles : List Article) : List Article :=
  dedupAux [] [] articles

/-- Specification-side keep condition, following the spec's words: a record
is kept iff it has a usable (non-empty) key and neither its non-empty URL
key nor its non-empty title key is borne by an already-kept record. -/
def keepSpec (kept : List Article) (a : Article) : Prop :=
  (urlKey a ≠ "" ∨ titleKey a ≠ "") ∧
  (urlKey a ≠ "" → urlKey a ∉ kept.map urlKey) ∧
  (titleKey a ≠ "" → titleKey a ∉ kept.map titleKey)

instance (kept : List Article) (a : Article) : Decidable (keepSpec kept a) := by
  unfold keepSpec; infer_instance

/-- Specification-side deduplication, recursing on the list of records kept
so far (written from the spec's words, to be compared with `dedup_articles`). -/
def dedupSpecAux (kept : List Article) : List Article → List Article
  | [] => []
  | a :: rest =>
    if keepSpec kept a then a :: dedupSpecAux (kept ++ [a]) rest
    else dedupSpecAux kept rest

/-- Specification-side deduplication entry point. -/
def dedupSpec (articles : List Article) : List Article := dedupSpecAux [] articles

theorem dedupAux_sublist (su st : List String) (l : List Article) :
    List.Sublist (dedupAux su st l) l := by
  induction l generalizing su st with
  | nil => simp [dedupAux]
  | cons a rest ih =>
    simp only [dedupAux]
    split
    · exact List.Sublist.cons a (ih su st)
    · split
      · exact List.Sublist.cons a (ih su st)
      · split
        · exact List.Sublist.cons a (ih su st)
        · exact List.Sublist.cons₂ a (ih _ _)

theorem dedupAux_eq_spec (su st : List String) (kept : List Article)
    (l : List Article)
    (hu : ∀ s, s ≠ "" → (s ∈ su ↔ s ∈ kept.map urlKey))
    (ht : ∀ s, s ≠ "" → (s ∈ st ↔ s ∈ kept.map titleKey)) :
    dedupAux su st l = dedupSpecAux kept l := by
  induction l generalizing su st kept with
  | nil => simp [dedupAux, dedupSpecAux]
  | cons a rest ih =>
    simp only [dedupAux, dedupSpecAux]
    by_cases h1 : titleKey a = "" ∧ urlKey a = ""
    · rw [if_pos h1]
      have hk : ¬ keepSpec kept a := by
        intro hk
        rcases hk.1 with h | h
        · exact h h1.2
        · exact h h1.1
      rw [if_neg hk]
      exact ih su st kept hu ht
    · rw [if_neg h1]
      by_cases h2 : urlKey a ≠ "" ∧ urlKey a ∈ su
      · rw [if_pos h2]
        have hk : ¬ keepSpec kept a := by
          intro hk
          exact hk.2.1 h2.1 ((hu _ h2.1).mp h2.2)
        rw [if_neg hk]
        exact ih su st kept hu ht
      · rw [if_neg h2]
        by_cases h3 : titleKey a ≠ "" ∧ titleKey a ∈ st
        · rw [if_pos h3]
          have hk : ¬ keepSpec kept a := by
            intro hk
            exact hk.2.2 h3.1 ((ht _ h3.1).mp h3.2)
          rw [if_neg hk]
          exact ih su st kept hu ht
        · rw [if_neg h3]
          have hk : keepSpec kept a := by
            refine ⟨?_, ?_, ?_⟩
            · by_cases hu0 : urlKey a = ""
              · right; intro ht0; exact h1 ⟨ht0, hu0⟩
              · left; exact hu0
            · intro hne hmem
              exact h2 ⟨hne, (hu _ hne).mpr hmem⟩
            · intro hne hmem
              exact h3 ⟨hne, (ht _ hne).mpr hmem⟩
          rw [if_pos hk]
          congr 1
          refine ih _ _ (kept ++ [a]) ?_ ?_
          · intro s hs
            simp only [List.mem_cons, List.map_append, List.mem_append,
              List.map_cons, List.map_nil, List.mem_singleton]
            constructor
            · rintro (rfl | hmem)
              · right; simp
              · left; exact (hu s hs).mp hmem
            · rintro (hmem | hmem)
              · right; exact (hu s hs).mpr hmem
              · left; simpa using hmem
          · intro s hs
            simp only [List.mem_cons, List.map_append, List.mem_append,
              List.map_cons, List.map_nil, List.mem_singleton]
            constructor
            · rintro (rfl | hmem)
              · right; simp
              · left; exact (ht s hs).mp hmem
            · rintro (hmem | hmem)
              · right; exact (ht s hs).mpr hmem
              · left; simpa using hmem

theorem dedup_eq_spec (l : List Article) : dedup_articles l = dedupSpec l :=
  dedupAux_eq_spec [] [] [] l (by simp) (by simp)

/-- Invariant of a list already in `dedupAux`-output form relative to the
accumulators: every record has a usable key, its non-empty keys are fresh,
and the tail respects the accumulators extended with this record's keys. -/
def goodOut : List String → List String → List Article → Prop
  | _, _, [] => True
  | su, st, a :: rest =>
    (urlKey a ≠ "" ∨ titleKey a ≠ "") ∧
    (urlKey a ≠ "" → urlKey a ∉ su) ∧
    (titleKey a ≠ "" → titleKey a ∉ st) ∧
    goodOut (urlKey a :: su) (titleKey a :: st) rest

theorem dedupAux_of_goodOut (su st : List String) (l : List Article)
    (h : goodOut su st l) : dedupAux su st l = l := by
  induction l generalizing su st with
  | nil => simp [dedupAux]
  | cons a rest ih =>
    obtain ⟨h1, h2, h3, h4⟩ := h
    simp only [dedupAux]
    rw [if_neg, if_neg, if_neg]
    · rw [ih _ _ h4]
    · rintro ⟨hne, hmem⟩; exact h3 hne hmem
    · rintro ⟨hne, hmem⟩; exact h2 hne hmem
    · rintro ⟨ht0, hu0⟩
      rcases h1 with h | h
      · exact h hu0
      · exact h ht0

theorem goodOut_dedupAux (su st : List String) (l : List Article) :
    goodOut su st (dedupAux su st l) := by
  induction l generalizing su st with
  | nil => simp [dedupAux, goodOut]
  | cons a rest ih =>
    simp only [dedupAux]
    by_cases h1 : titleKey a = "" ∧ urlKey a = ""
    · rw [if_pos h1]; exact ih su st
    · rw [if_neg h1]
      by_cases h2 : urlKey a ≠ "" ∧ urlKey a ∈ su
      · rw [if_pos h2]; exact ih su st
      · rw [if_neg h2]
        by_cases h3 : titleKey a ≠ "" ∧ titleKey a ∈ st
        · rw [if_pos h3]; exact ih su st
        · rw [if_neg h3]
          refine ⟨?_, ?_, ?_, ih _ _⟩
          · by_cases hu0 : urlKey a = ""
            · right; intro ht0; exact h1 ⟨ht0, hu0⟩
            · left; exact hu0
          · intro hne hmem; exact h2 ⟨hne, hmem⟩
          · intro hne hmem; exact h3 ⟨hne, hmem⟩

/-- A job record (`Dict[str, Any]` in the source, restricted to the string
fields the dedup helpers read; a missing key is `none`). -/
structure Job where
  id : Option String
  title : Option String
  company : Option String
  location : Option String
  description : Option String
  deriving DecidableEq, Repr

/-- Title part of the key of `deduplicate_jobs`
(src/job_recommendation_maf/src/utils/dedup.py): `job.get("title", "").lower().strip()`. -/
def jobTitleKey (j : Job) : String := pyStrip (pyLower (j.title.getD ""))

/-- Company part of the key of `deduplicate_jobs`
(src/job_recommendation_maf/src/utils/dedup.py): `job.get("company", "").lower().strip()`. -/
def jobCompanyKey (j : Job) : String := pyStrip (pyLower (j.company.getD ""))

/-- The loop of `deduplicate_jobs` in src/job_recommendation_maf/src/utils/dedup.py,
with the `seen` set an explicit accumulator: keep a job iff its
(title, company) key is unseen and both parts are non-empty. -/
def dedupJobsMafAux (seen : List (String × String)) : List Job → List Job
  | [] => []
  | j :: rest =>
    let key := (jobTitleKey j, jobCompanyKey j)
    if key ∉ seen ∧ jobTitleKey j ≠ "" ∧ jobCompanyKey j ≠ "" then
      j :: dedupJobsMafAux (key :: seen) rest
    else
      dedupJobsMafAux seen rest

/-- `deduplicate_jobs` of src/job_recommendation_maf/src/utils/dedup.py. -/
def deduplicate_jobs_maf (jobs : List Job) : List Job := dedupJobsMafAux [] jobs

/-- The key of `deduplicate_jobs` in src/job_recommendation/src/utils/dedup_utils.py:
`(job.get('id'), job.get('title'))`, unnormalized, `None` allowed. -/
def jobKeyJR (j : Job) : Option String × Option String := (j.id, j.title)

/-- The loop of `deduplicate_jobs` in src/job_recommendation/src/utils/dedup_utils.py,
with the `seen` set an explicit accumulator. -/
def dedupJobsJRAux (seen : List (Option String × Option String)) : List Job → List Job
  | [] => []
  | j :: rest =>
    if jobKeyJR j ∉ seen then j :: dedupJobsJRAux (jobKeyJR j :: seen) rest
    else dedupJobsJRAux seen rest

/-- `deduplicate_jobs` of src/job_recommendation/src/utils/dedup_utils.py. -/
def deduplicate_jobs_jr (jobs : List Job) : List Job := dedupJobsJRAux [] jobs

/-- Output-form invariant for the maf job dedup. -/
def goodJobsMaf : List (String × String) → List Job → Prop
  | _, [] => True
  | seen, j :: rest =>
    ((jobTitleKey j, jobCompanyKey j) ∉ seen ∧ jobTitleKey j ≠ "" ∧ jobCompanyKey j ≠ "") ∧
    goodJobsMaf ((jobTitleKey j, jobCompanyKey j) :: seen) rest

theorem dedupJobsMafAux_of_good (seen : List (String × String)) (l : List Job)
    (h : goodJobsMaf seen l) : dedupJobsMafAux seen l = l := by
  induction l generalizing seen with
  | nil => simp [dedupJobsMafAux]
  | cons j rest ih =>
    obtain ⟨h1, h2⟩ := h
    simp only [dedupJobsMafAux]
    rw [if_pos h1, ih _ h2]

theorem goodJobsMaf_dedupJobsMafAux (seen : List (String × String)) (l : List Job) :
    goodJobsMaf seen (dedupJobsMafAux seen l) := by
  induction l generalizing seen with
  | nil => simp [dedupJobsMafAux, goodJobsMaf]
  | cons j rest ih =>
    simp only [dedupJobsMafAux]
    by_cases hc : (jobTitleKey j, jobCompanyKey j) ∉ seen ∧
        jobTitleKey j ≠ "" ∧ jobCompanyKey j ≠ ""
    · rw [if_pos hc]
      exact ⟨hc, ih _⟩
    · rw [if_neg hc]
      exact ih seen

/-- Output-form invariant for the job_recommendation job dedup. -/
def goodJobsJR : List (Option String × Option String) → List Job → Prop
  | _, [] => True
  | seen, j :: rest => jobKeyJR j ∉ seen ∧ goodJobsJR (jobKeyJR j :: seen) rest

theorem dedupJobsJRAux_of_good (seen : List (Option String × Option String))
    (l : List Job) (h : goodJobsJR seen l) : dedupJobsJRAux seen l = l := by
  induction l generalizing seen with
  | nil => simp [dedupJobsJRAux]
  | cons j rest ih =>
    obtain ⟨h1, h2⟩ := h
    simp only [dedupJobsJRAux]
    rw [if_pos h1, ih _ h2]

theorem goodJobsJR_dedupJobsJRAux (seen : List (Option String × Option String))
    (l : List Job) : goodJobsJR seen (dedupJobsJRAux seen l) := by
  induction l generalizing seen with
  | nil => simp [dedupJobsJRAux, goodJobsJR]
  | cons j rest ih =>
    simp only [dedupJobsJRAux]
    by_cases hc : jobKeyJR j ∉ seen
    · rw [if_pos hc]
      exact ⟨hc, ih _⟩
    · rw [if_neg hc]
      exact ih seen

/-- A parsed JSON value, the output space of `json.loads`.  (Numbers are
modelled as integers; none of the embedded code inspects numeric values.) -/
inductive Json where
  | null
  | bool (b : Bool)
  | num (n : Int)
  | str (s : String)
  | arr (elems : List Json)
  | obj (fields : List (String × Json))

/-- The fixed category vocabulary, identical in
src/news/src/agents/router_agent.py, src/news_maf/src/agents/router_agent.py
and src/news_maf/src/agents/query_classifier_agent.py. -/
def CATEGORIES : List String :=
  ["technology", "sports", "business", "science", "health", "entertainment", "general"]

/-- Python `dict.get(k, default)` on a parsed JSON object (`json.loads` keeps
the last occurrence of a duplicate key, hence the reversed lookup). -/
def pyDictGet (fields : List (String × Json)) (k : String) (default : Json) : Json :=
  (fields.reverse.lookup k).getD default

/-- Python iteration `for t in x` over a JSON value: arrays yield elements,
strings yield one-character strings, dicts yield their keys; iterating any
other value raises `TypeError` (`none`). -/
def pyIterElems : Json → Option (List Json)
  | .arr elems => some elems
  | .str s => some (s.data.map (fun c => Json.str (String.mk [c])))
  | .obj fields => some (fields.map (fun kv => Json.str kv.1))
  | _ => none

/-- The comprehension `[t for t in targets if t in CATEGORIES]` of
`route_categories` (only string elements can equal a vocabulary word). -/
def routeTargetsFilter : List Json → List String
  | [] => []
  | .str s :: ts =>
    if s ∈ CATEGORIES then s :: routeTargetsFilter ts else routeTargetsFilter ts
  | _ :: ts => routeTargetsFilter ts

/-- Valid vocabulary labels recoverable from a parsed router response:
`data.get("targets", [])` filtered to the vocabulary; empty when `data` is
not a dict or `targets` is not iterable (those paths raise and are caught). -/
def routeValidTargets : Json → List String
  | .obj fields =>
    match pyIterElems (pyDictGet fields "targets" (Json.arr [])) with
    | some ts => routeTargetsFilter ts
    | none => []
  | _ => []

/-- Outcome of the external router call as observed by `route_categories`:
the agent invocation raised, or returned text that `json.loads` rejects
(after fence stripping in the news_maf variant), or text parsing to `j`. -/
inductive RouterCall where
  | raise (e : String)
  | unparsable
  | parsed (j : Json)

/-- `route_categories` of src/news/src/agents/router_agent.py and
src/news_maf/src/agents/router_agent.py (their post-call logic is identical).
The agent invocation stands OUTSIDE the `try` in both sources, so an
exception from the external call propagates (`Except.error`); only the
parse/validate step is guarded, falling back to `["general"]`. -/
def route_categories : RouterCall → Except String (List String)
  | .raise e => .error e
  | .unparsable => .ok ["general"]
  | .parsed j =>
    .ok (if (routeValidTargets j).isEmpty then ["general"] else routeValidTargets j)

/-- Outcome of the external classifier call as observed by `classify_query`:
raised, empty/absent response text, unparsable text, or text parsing to `j`. -/
inductive ClassifierCall where
  | raise (e : String)
  | emptyText
  | unparsable
  | parsed (j : Json)

/-- The comprehension
`[c.lower() for c in categories if isinstance(c, str) and c.lower() in CATEGORIES]`
of `classify_query`. -/
def classifyValidList : List Json → List String
  | [] => []
  | .str s :: cs =>
    if pyLower s ∈ CATEGORIES then pyLower s :: classifyValidList cs
    else classifyValidList cs
  | _ :: cs => classifyValidList cs

/-- Valid labels recoverable from a parsed classifier response: the source
first requires the payload to be a list, then filters/lowercases. -/
def classifyValid : Json → List String
  | .arr elems => classifyValidList elems
  | _ => []

/-- `classify_query` of src/news_maf/src/agents/query_classifier_agent.py.
The whole body, the external call included, sits inside one
`try ... except Exception`, so every path returns normally. -/
def classify_query : ClassifierCall → Except String (List String)
  | .raise _ => .ok ["general"]
  | .emptyText => .ok ["general"]
  | .unparsable => .ok ["general"]
  | .parsed j =>
    .ok (if (classifyValid j).isEmpty then ["general"] else classifyValid j)

theorem routeTargetsFilter_subset (ts : List Json) :
    ∀ s ∈ routeTargetsFilter ts, s ∈ CATEGORIES := by
  induction ts with
  | nil => simp [routeTargetsFilter]
  | cons t rest ih =>
    cases t with
    | str s =>
      simp only [routeTargetsFilter]
      split
      · intro x hx
        rcases List.mem_cons.mp hx with rfl | hx
        · assumption
        · exact ih x hx
      · exact ih
    | null => exact ih
    | bool b => exact ih
    | num n => exact ih
    | arr es => exact ih
    | obj fs => exact ih

theorem routeValidTargets_subset (j : Json) :
    ∀ s ∈ routeValidTargets j, s ∈ CATEGORIES := by
  cases j with
  | obj fields =>
    simp only [routeValidTargets]
    cases pyIterElems (pyDictGet fields "targets" (Json.arr [])) with
    | none => simp
    | some ts => exact routeTargetsFilter_subset ts
  | null => simp [routeValidTargets]
  | bool b => simp [routeValidTargets]
  | num n => simp [routeValidTargets]
  | str s => simp [routeValidTargets]
  | arr es => simp [routeValidTargets]

theorem classifyValidList_subset (cs : List Json) :
    ∀ s ∈ classifyValidList cs, s ∈ CATEGORIES := by
  induction cs with
  | nil => simp [classifyValidList]
  | cons c rest ih =>
    cases c with
    | str s =>
      simp only [classifyValidList]
      split
      · intro x hx
        rcases List.mem_cons.mp hx with rfl | hx
        · assumption
        · exact ih x hx
      · exact ih
    | null => exact ih
    | bool b => exact ih
    | num n => exact ih
    | arr es => exact ih
    | obj fs => exact ih

theorem classifyValid_subset (j : Json) :
    ∀ s ∈ classifyValid j, s ∈ CATEGORIES := by
  cases j with
  | arr es => exact classifyValidList_subset es
  | null => simp [classifyValid]
  | bool b => simp [classifyValid]
  | num n => simp [classifyValid]
  | str s => simp [classifyValid]
  | obj fs => simp [classifyValid]

/-- Valid labels recoverable from the external router response, per call outcome. -/
def routerRecoverable : RouterCall → List String
  | .parsed j => routeValidTargets j
  | _ => []

/-- Valid labels recoverable from the external classifier response, per call outcome. -/
def classifierRecoverable : ClassifierCall → List String
  | .parsed j => classifyValid j
  | _ => []

/-- The JSON payload shapes a category fetch response can parse into. -/
inductive Payload where
  | badJson                         -- text that json.loads rejects
  | errorObj (msg : String)         -- a dict carrying a truthy "error" key
  | nonList                         -- any other non-list JSON value
  | list (articles : List Article)  -- a JSON array of article dicts

/-- Outcome of one category agent invocation at the orchestrator level. -/
inductive FetchOutcome where
  | raise (e : String)
  | payload (p : Payload)

/-- The records one category contributes in `ProNewsOrchestrator.run`
(src/news/src/orchestration/pro_orchestrator.py): `_fetch_from_category`
returns the parsed list when the payload is a JSON list and `[]` otherwise;
an exception from the agent call is captured by
`asyncio.gather(..., return_exceptions=True)` and skipped by the merge loop. -/
def proContrib : FetchOutcome → List Article
  | .raise _ => []
  | .payload (.list xs) => xs
  | .payload _ => []

/-- The merged article list of `ProNewsOrchestrator.run` before dedup. -/
def proAllArticles (results : List FetchOutcome) : List Article :=
  (results.map proContrib).flatten

/-- The deduplicated aggregate of `ProNewsOrchestrator.run`. -/
def proAggregate (results : List FetchOutcome) : List Article :=
  dedup_articles (proAllArticles results)

/-- `article.setdefault("category", category)` of the news_maf orchestrators. -/
def setdefaultCategory (c : String) (a : Article) : Article :=
  { a with category := some (a.category.getD c) }

/-- `_parse_article_response` of
src/news_maf/src/orchestration/sequential_orchestrator.py: bad JSON and
non-list payloads (an error dict included) yield `[]`; a list is returned
with each article's `category` key defaulted. -/
def seqParseArticles (c : String) : Payload → List Article
  | .list xs => xs.map (setdefaultCategory c)
  | _ => []

/-- `_fetch_category_articles` of the sequential news_maf orchestrator: the
agent call and the parse sit inside one `try`, so any exception degrades to
`[]` for that category alone. -/
def seqFetchCategoryArticles (c : String) : FetchOutcome → List Article
  | .raise _ => []
  | .payload p => seqParseArticles c p

/-- The article list accumulated by `_fetch_articles_sequentially`, one
(category, fetch outcome) pair per requested category. -/
def seqAllArticles (l : List (String × FetchOutcome)) : List Article :=
  (l.map (fun ce => seqFetchCategoryArticles ce.1 ce.2)).flatten

/-- Deduplicated aggregate of the sequential news_maf orchestrator. -/
def seqAggregate (l : List (String × FetchOutcome)) : List Article :=
  dedup_articles (seqAllArticles l)

/-- `_parse_article_response` of
src/news_maf/src/orchestration/concurrent_orchestrator.py: bad JSON, an
error dict and any other non-list payload all yield `[]`; list elements are
kept (the dict ones) with the `category` key defaulted. -/
def mafConcParseArticles (c : String) : Payload → List Article
  | .badJson => []
  | .errorObj _ => []
  | .nonList => []
  | .list xs => xs.map (setdefaultCategory c)

/-- A fetch outcome counting as a per-category failure: the call raised, or
the payload is malformed (non-JSON, an error object, or not a list). -/
def isFailedFetch : FetchOutcome → Prop
  | .raise _ => True
  | .payload .badJson => True
  | .payload (.errorObj _) => True
  | .payload .nonList => True
  | .payload (.list _) => False

/-- A fetch outcome returning a well-formed record list. -/
def isWellFormedFetch (r : FetchOutcome) : Prop :=
  ∃ xs, r = FetchOutcome.payload (Payload.list xs)

theorem proContrib_of_failed (r : FetchOutcome) (h : isFailedFetch r) :
    proContrib r = [] := by
  cases r with
  | raise e => rfl
  | payload p => cases p with
    | badJson => rfl
    | errorObj m => rfl
    | nonList => rfl
    | list xs => exact absurd h (by simp [isFailedFetch])

theorem seqFetch_of_failed (c : String) (r : FetchOutcome) (h : isFailedFetch r) :
    seqFetchCategoryArticles c r = [] := by
  cases r with
  | raise e => rfl
  | payload p => cases p with
    | badJson => rfl
    | errorObj m => rfl
    | nonList => rfl
    | list xs => exact absurd h (by simp [isFailedFetch])

/-- Insertion of a pair into a lexicographically sorted list (model of the
order produced by Python's `sorted` on (source, host) pairs). -/
def insertPair (p : String × String) : List (String × String) → List (String × String)
  | [] => [p]
  | q :: qs =>
    if p.1 < q.1 ∨ (p.1 = q.1 ∧ p.2 ≤ q.2) then p :: q :: qs else q :: insertPair p qs

/-- `sorted(...)` on a collection of (source, host) pairs. -/
def sortPairs (l : List (String × String)) : List (String × String) :=
  l.foldr insertPair []

/-- The `Top sources` block of `ProNewsOrchestrator.run`:
`sorted({(a.get("source") or "", _host(a.get("url"))) for a in merged})`
rendered one `- source (host)` line per pair with a non-empty component.
`hostOf` stands for `_host` (urllib's netloc extraction, an external API). -/
def proSourcesLines (hostOf : Option String → String) (merged : List Article) : String :=
  let pairs := (merged.map (fun a => (a.source.getD "", hostOf a.url))).eraseDups
  let sorted := sortPairs pairs
  String.intercalate "\n"
    ((sorted.filter (fun sh => sh.1 ≠ "" ∨ sh.2 ≠ "")).map
      (fun sh => "- " ++ sh.1 ++ " (" ++ sh.2 ++ ")"))

/-- Batching `for i in range(0, len(merged), 6): merged[i:i+6]`. -/
def chunksOf6 : List Article → List (List Article)
  | [] => []
  | a :: rest => (a :: rest).take 6 :: chunksOf6 ((a :: rest).drop 6)
  termination_by l => l.length
  decreasing_by
    simp only [List.drop, List.length_drop, List.length_cons]
    omega

/-- `ProNewsOrchestrator.run` after routing
(src/news/src/orchestration/pro_orchestrator.py): merge the per-category
results, dedup, short-circuit to the sentinel on empty, otherwise run the
map-reduce summarization.  `summ` is the external summarizer agent,
`dumps` is `json.dumps` on an article batch, `hostOf` is `_host`; the
second component counts summarizer invocations. -/
def proRun (targets : List String) (results : List FetchOutcome)
    (summ : String → String) (dumps : List Article → String)
    (hostOf : Option String → String) : String × Nat :=
  let merged := dedup_articles (proAllArticles results)
  if merged.isEmpty then ("No articles found.", 0)
  else
    let batches := chunksOf6 merged
    let maps := batches.map (fun b =>
      summ ("Summarize these articles to 3 bullets with inline sources (JSON provided):\n"
        ++ dumps b))
    let combined := String.intercalate "\n\n" maps
    let brief := summ
      ("Synthesize a 5-bullet executive brief for an engineering leader from the following partial summaries.\n"
        ++ combined)
    ("Selected categories: " ++ String.intercalate ", " targets ++ "\n\n" ++ brief
        ++ "\n\nTop sources:\n" ++ proSourcesLines hostOf merged,
      batches.length + 1)

/-- `SequentialNewsOrchestrator.run` after routing
(src/news_maf/src/orchestration/sequential_orchestrator.py): empty category
list short-circuits, then fetch sequentially, dedup, short-circuit to the
sentinel on empty, else one summarizer call (`_create_summary`, whose
failure or empty output is converted to a sentinel text).  The second
component counts summarizer invocations. -/
def seqRun (categories : List String) (fetch : String → FetchOutcome)
    (summarizerCall : Except String String) : String × Nat :=
  if categories.isEmpty then ("No categories selected.", 0)
  else
    let uniqueArticles := dedup_articles
      (seqAllArticles (categories.map (fun c => (c, fetch c))))
    if uniqueArticles.isEmpty then ("No articles found.", 0)
    else
      let summaryText :=
        match summarizerCall with
        | .ok t => if t = "" then "Summarizer produced no output." else t
        | .error e => "Failed to summarize: " ++ e
      ("**Categories analyzed:** " ++ String.intercalate ", " categories
          ++ "\n\n" ++ summaryText, 1)

/-- Per-result contribution in `ConcurrentNewsOrchestrator.run`
(src/news/src/orchestration/concurrent_orchestrator.py): only payloads
parsing to a JSON list contribute; bad JSON is caught and non-list values
are silently skipped. -/
def concParse : Payload → List Article
  | .list xs => xs
  | _ => []

/-- `ConcurrentNewsOrchestrator.run` after routing: collect+parse results,
dedup, short-circuit to the sentinel on empty, else one summarizer call.
The second component counts summarizer invocations. -/
def concRun (categories : List String) (results : List Payload)
    (summ : String → String) (dumps : List Article → String) : String × Nat :=
  let uniqueArticles := dedup_articles ((results.map concParse).flatten)
  if uniqueArticles.isEmpty then ("No articles found.", 0)
  else
    let summary := summ (dumps uniqueArticles)
    ("**Categories analyzed (in parallel):** " ++ String.intercalate ", " categories
        ++ "\n\n" ++ summary, 1)

/-- Python `str.split()` on the character-list view: split on runs of
whitespace, yielding the non-empty words (accumulator holds the current
word reversed). -/
def pyWordsAux (cur : List Char) : List Char → List (List Char)
  | [] => if cur = [] then [] else [cur.reverse]
  | c :: cs =>
    if pyIsSpace c then
      if cur = [] then pyWordsAux [] cs else cur.reverse :: pyWordsAux [] cs
    else pyWordsAux (c :: cur) cs

/-- The words of a character list, Python `str.split()` style. -/
def pyWords (l : List Char) : List (List Char) := pyWordsAux [] l

/-- Python `str.split()`. -/
def pySplit (s : String) : List String := (pyWords s.data).map (fun w => String.mk w)

/-- Python `" ".join(...)` at the character-list level. -/
def pyJoinChars : List (List Char) → List Char
  | [] => []
  | [w] => w
  | w :: ws => w ++ ' ' :: pyJoinChars ws

/-- Python `" ".join(ws)`. -/
def pyJoinSpace (ws : List String) : String :=
  String.mk (pyJoinChars (ws.map String.data))

/-- The description truncation shared by both job-board plugins
(src/job_recommendation_maf/src/plugins/job_board_plugin.py and
src/job_recommendation/src/plugins/job_board_plugin.py):
`desc_words = desc.split(); if len(desc_words) > 100: desc = " ".join(desc_words[:100]) + "..."`. -/
def truncDesc (desc : String) : String :=
  let descWords := pySplit desc
  if descWords.length > 100 then pyJoinSpace (descWords.take 100) ++ "..."
  else desc

/-- One element of SerpAPI's `jobs_results` (the fields the plugins read). -/
structure RawJob where
  title : Option String
  company_name : Option String
  company : Option String
  location : Option String
  description : Option String
  deriving DecidableEq, Repr

/-- One element of NewsAPI's `articles` (the fields the plugin reads;
`source_name` stands for `(a.get("source") or {}).get("name")`). -/
structure RawArticle where
  title : Option String
  author : Option String
  source_name : Option String
  url : Option String
  description : Option String
  deriving DecidableEq, Repr

/-- Python `a or b` on two optional strings (None and "" are falsy). -/
def pyOrOpt (a b : Option String) : Option String :=
  match a with
  | some s => if s = "" then b else some s
  | none => b

/-- The record built per job by `search_jobs` of
src/job_recommendation_maf/src/plugins/job_board_plugin.py: title,
`company_name or company`, location, and the truncated description. -/
def search_jobs_record_maf (job : RawJob) : Job :=
  { id := none
    title := job.title
    company := pyOrOpt job.company_name job.company
    location := job.location
    description := some (truncDesc (job.description.getD "")) }

/-- The record built per job by `JobBoardPlugin.search_jobs` of
src/job_recommendation/src/plugins/job_board_plugin.py: title, company,
location, and the truncated description. -/
def search_jobs_record_jr (job : RawJob) : Job :=
  { id := none
    title := job.title
    company := job.company
    location := job.location
    description := some (truncDesc (job.description.getD "")) }

/-- The record built per article by `NewsPlugin.fetch_top_headlines` of
src/news/src/plugins/news_plugin.py: title, author, source name, url and
the description passed through UNCHANGED (this plugin has no truncation
step). -/
def fetch_top_headlines_record (a : RawArticle) : Article :=
  { url := a.url
    title := a.title
    author := a.author
    source := a.source_name
    category := none
    description := a.description }

/-- The JSON string a plugin returns, by shape: either a dict with an
"error" key, or the serialized record list. -/
inductive PluginResult (α : Type) where
  | errorJson (msg : String)
  | records (rs : List α)
  deriving DecidableEq, Repr

/-- `NewsPlugin.fetch_top_headlines` (src/news/src/plugins/news_plugin.py):
RAISES `ValueError` when `NEWSAPI_API_KEY` is unset; with a key, a
`requests.RequestException` (modelled by `net = .error`) is converted to an
error JSON, and a successful response yields the first `limit` records. -/
def fetch_top_headlines (apiKey : Option String)
    (net : Except String (List RawArticle)) (limit : Nat) :
    Except String (PluginResult Article) :=
  match apiKey with
  | none => .error "NEWSAPI_API_KEY not set."
  | some _ =>
    match net with
    | .error e => .ok (.errorJson ("NewsAPI error: " ++ e))
    | .ok arts => .ok (.records ((arts.map fetch_top_headlines_record).take limit))

/-- `search_jobs` (src/job_recommendation_maf/src/plugins/job_board_plugin.py):
a missing `SERPAPI_API_KEY` RETURNS an error JSON (no exception); a
`requests.RequestException` is converted to an error JSON. -/
def search_jobs_maf (apiKey : Option String)
    (net : Except String (List RawJob)) : Except String (PluginResult Job) :=
  match apiKey with
  | none => .ok (.errorJson "SERPAPI_API_KEY not set")
  | some _ =>
    match net with
    | .error e => .ok (.errorJson ("SerpAPI error: " ++ e))
    | .ok jobs => .ok (.records (jobs.map search_jobs_record_maf))

/-- `JobBoardPlugin.search_jobs` (src/job_recommendation/src/plugins/job_board_plugin.py):
RAISES `ValueError` when `SERPAPI_API_KEY` is unset (the check sits before
the `try`); inside the `try`, any exception is converted to an error JSON. -/
def search_jobs_jr (apiKey : Option String)
    (net : Except String (List RawJob)) : Except String (PluginResult Job) :=
  match apiKey with
  | none => .error "SERPAPI_API_KEY not set."
  | some _ =>
    match net with
    | .error e => .ok (.errorJson e)
    | .ok jobs => .ok (.records (jobs.map search_jobs_record_jr))

theorem pyWordsAux_sound (l : List Char) :
    ∀ cur, (∀ c ∈ cur, pyIsSpace c = false) →
    ∀ w ∈ pyWordsAux cur l, w ≠ [] ∧ ∀ c ∈ w, pyIsSpace c = false := by
  induction l with
  | nil =>
    intro cur hcur w hw
    simp only [pyWordsAux] at hw
    split at hw
    · simp at hw
    · rename_i hne
      rcases List.mem_singleton.mp hw with rfl
      refine ⟨by simpa using hne, ?_⟩
      intro c hc
      exact hcur c (List.mem_reverse.mp hc)
  | cons c cs ih =>
    intro cur hcur w hw
    simp only [pyWordsAux] at hw
    split at hw
    · split at hw
      · exact ih [] (by simp) w hw
      · rename_i hne
        rcases List.mem_cons.mp hw with rfl | hw
        · refine ⟨by simpa using hne, ?_⟩
          intro d hd
          exact hcur d (List.mem_reverse.mp hd)
        · exact ih [] (by simp) w hw
    · rename_i hns
      refine ih (c :: cur) ?_ w hw
      intro d hd
      rcases List.mem_cons.mp hd with rfl | hd
      · simpa using hns
      · exact hcur d hd

theorem pyWords_sound (l : List Char) :
    ∀ w ∈ pyWords l, w ≠ [] ∧ ∀ c ∈ w, pyIsSpace c = false :=
  pyWordsAux_sound l [] (by simp)

theorem pyWordsAux_word_append (w : List Char) :
    ∀ cur r, (∀ c ∈ w, pyIsSpace c = false) →
    pyWordsAux cur (w ++ r) = pyWordsAux (w.reverse ++ cur) r := by
  induction w with
  | nil => intro cur r _; simp
  | cons c cs ih =>
    intro cur r hw
    have hc : pyIsSpace c = false := hw c (by simp)
    simp only [List.cons_append, pyWordsAux]
    rw [if_neg (by simp [hc])]
    rw [show cs.append r = cs ++ r from rfl]
    rw [ih (c :: cur) r (fun d hd => hw d (List.mem_cons_of_mem c hd))]
    simp [List.append_assoc]

theorem pyWords_single (w : List Char) (hne : w ≠ [])
    (hw : ∀ c ∈ w, pyIsSpace c = false) : pyWords w = [w] := by
  have h0 : pyWords w = pyWordsAux [] (w ++ []) := by simp [pyWords]
  rw [h0, pyWordsAux_word_append w [] [] hw]
  simp only [pyWordsAux, List.append_nil]
  rw [if_neg (by simpa using hne)]
  simp

theorem pyWords_join_append_length :
    ∀ ws : List (List Char), ∀ tail : List Char, ws ≠ [] →
    (∀ w ∈ ws, w ≠ [] ∧ ∀ c ∈ w, pyIsSpace c = false) →
    (∀ c ∈ tail, pyIsSpace c = false) →
    (pyWords (pyJoinChars ws ++ tail)).length = ws.length := by
  intro ws
  induction ws with
  | nil => intro tail h; exact absurd rfl h
  | cons w rest ih =>
    intro tail _ hws htail
    obtain ⟨hwne, hwns⟩ := hws w (by simp)
    cases rest with
    | nil =>
      have hall : ∀ c ∈ w ++ tail, pyIsSpace c = false := by
        intro c hc
        rcases List.mem_append.mp hc with hc | hc
        · exact hwns c hc
        · exact htail c hc
      have hne : w ++ tail ≠ [] := by
        intro h
        exact hwne (List.append_eq_nil.mp h).1
      rw [show pyJoinChars [w] = w from rfl, pyWords_single (w ++ tail) hne hall]
      rfl
    | cons w2 rest2 =>
      have hjoin : pyJoinChars (w :: w2 :: rest2) = w ++ ' ' :: pyJoinChars (w2 :: rest2) :=
        rfl
      rw [hjoin]
      have hstep : pyWords ((w ++ ' ' :: pyJoinChars (w2 :: rest2)) ++ tail)
          = w :: pyWords (pyJoinChars (w2 :: rest2) ++ tail) := by
        have h1 : (w ++ ' ' :: pyJoinChars (w2 :: rest2)) ++ tail
            = w ++ ' ' :: (pyJoinChars (w2 :: rest2) ++ tail) := by
          simp [List.append_assoc]
        rw [h1]
        show pyWordsAux [] (w ++ ' ' :: (pyJoinChars (w2 :: rest2) ++ tail))
            = w :: pyWords (pyJoinChars (w2 :: rest2) ++ tail)
        rw [pyWordsAux_word_append w [] _ hwns]
        simp only [pyWordsAux, List.append_nil]
        rw [if_pos (by simp [pyIsSpace]), if_neg (by simpa using hwne)]
        simp [pyWords]
      rw [hstep]
      simp only [List.length_cons]
      rw [ih tail (by simp) (fun x hx => hws x (List.mem_cons_of_mem w hx)) htail]
      simp

/-- A record has a usable deduplication key: a non-empty URL key or a
non-empty normalized title key. -/
def usableKey (a : Article) : Prop := urlKey a ≠ "" ∨ titleKey a ≠ ""

/-- Two records collide when they share a non-empty URL key or a non-empty
normalized title key. -/
def keyCollide (x y : Article) : Prop :=
  (urlKey x ≠ "" ∧ urlKey x = urlKey y) ∨ (titleKey x ≠ "" ∧ titleKey x = titleKey y)

instance (a : Article) : Decidable (usableKey a) := by
  unfold usableKey; infer_instance

instance (x y : Article) : Decidable (keyCollide x y) := by
  unfold keyCollide; infer_instance

theorem keepSpec_not_mem (kept : List Article) (a : Article)
    (h : keepSpec kept a) : a ∉ kept := by
  intro hmem
  rcases h.1 with hu | ht
  · exact h.2.1 hu (List.mem_map.mpr ⟨a, hmem, rfl⟩)
  · exact h.2.2 ht (List.mem_map.mpr ⟨a, hmem, rfl⟩)

theorem mem_dedupSpecAux_not_kept (l : List Article) :
    ∀ kept x, x ∈ dedupSpecAux kept l → usableKey x ∧ x ∉ kept := by
  induction l with
  | nil => intro kept x hx; simp [dedupSpecAux] at hx
  | cons a rest ih =>
    intro kept x hx
    simp only [dedupSpecAux] at hx
    split at hx
    · rename_i hkeep
      rcases List.mem_cons.mp hx with rfl | hx
      · exact ⟨hkeep.1, keepSpec_not_mem kept x hkeep⟩
      · obtain ⟨hu, hnk⟩ := ih (kept ++ [a]) x hx
        exact ⟨hu, fun hmem => hnk (List.mem_append.mpr (Or.inl hmem))⟩
    · exact ih kept x hx

theorem dedupSpecAux_nodup (l : List Article) :
    ∀ kept, (dedupSpecAux kept l).Nodup := by
  induction l with
  | nil => intro kept; simp [dedupSpecAux]
  | cons a rest ih =>
    intro kept
    simp only [dedupSpecAux]
    split
    · refine List.nodup_cons.mpr ⟨?_, ih (kept ++ [a])⟩
      intro hmem
      obtain ⟨_, hnk⟩ := mem_dedupSpecAux_not_kept rest (kept ++ [a]) a hmem
      exact hnk (List.mem_append.mpr (Or.inr (by simp)))
    · exact ih kept

theorem not_keepSpec_mem_kept (kept : List Article) (a : Article) (rest : List Article)
    (hcf : ∀ x ∈ kept ++ a :: rest, ∀ y ∈ kept ++ a :: rest, keyCollide x y → x = y)
    (hu : usableKey a) (hk : ¬ keepSpec kept a) : a ∈ kept := by
  have ha : a ∈ kept ++ a :: rest := List.mem_append.mpr (Or.inr (by simp))
  by_cases h2 : urlKey a ≠ "" ∧ urlKey a ∈ kept.map urlKey
  · obtain ⟨k, hkmem, hkeq⟩ := List.mem_map.mp h2.2
    have : a = k :=
      hcf a ha k (List.mem_append.mpr (Or.inl hkmem)) (Or.inl ⟨h2.1, hkeq.symm⟩)
    exact this ▸ hkmem
  · by_cases h3 : titleKey a ≠ "" ∧ titleKey a ∈ kept.map titleKey
    · obtain ⟨k, hkmem, hkeq⟩ := List.mem_map.mp h3.2
      have : a = k :=
        hcf a ha k (List.mem_append.mpr (Or.inl hkmem)) (Or.inr ⟨h3.1, hkeq.symm⟩)
      exact this ▸ hkmem
    · exfalso
      apply hk
      refine ⟨hu, ?_, ?_⟩
      · intro hne hmem; exact h2 ⟨hne, hmem⟩
      · intro hne hmem; exact h3 ⟨hne, hmem⟩

theorem mem_dedupSpecAux (l : List Article) :
    ∀ kept, (∀ x ∈ kept ++ l, ∀ y ∈ kept ++ l, keyCollide x y → x = y) →
    ∀ x, x ∈ dedupSpecAux kept l ↔ usableKey x ∧ x ∈ l ∧ x ∉ kept := by
  induction l with
  | nil => intro kept _ x; simp [dedupSpecAux]
  | cons a rest ih =>
    intro kept hcf x
    have hcf' : ∀ u ∈ (kept ++ [a]) ++ rest, ∀ v ∈ (kept ++ [a]) ++ rest,
        keyCollide u v → u = v := by
      intro u hu v hv
      refine hcf u ?_ v ?_
      · rcases List.mem_append.mp hu with hu | hu
        · rcases List.mem_append.mp hu with hu | hu
          · exact List.mem_append.mpr (Or.inl hu)
          · exact List.mem_append.mpr (Or.inr (by simp at hu; simp [hu]))
        · exact List.mem_append.mpr (Or.inr (List.mem_cons_of_mem a hu))
      · rcases List.mem_append.mp hv with hv | hv
        · rcases List.mem_append.mp hv with hv | hv
          · exact List.mem_append.mpr (Or.inl hv)
          · exact List.mem_append.mpr (Or.inr (by simp at hv; simp [hv]))
        · exact List.mem_append.mpr (Or.inr (List.mem_cons_of_mem a hv))
    have hcfr : ∀ u ∈ kept ++ rest, ∀ v ∈ kept ++ rest, keyCollide u v → u = v := by
      intro u hu v hv
      refine hcf u ?_ v ?_
      · rcases List.mem_append.mp hu with hu | hu
        · exact List.mem_append.mpr (Or.inl hu)
        · exact List.mem_append.mpr (Or.inr (List.mem_cons_of_mem a hu))
      · rcases List.mem_append.mp hv with hv | hv
        · exact List.mem_append.mpr (Or.inl hv)
        · exact List.mem_append.mpr (Or.inr (List.mem_cons_of_mem a hv))
    simp only [dedupSpecAux]
    split
    · rename_i hkeep
      constructor
      · intro hx
        rcases List.mem_cons.mp hx with rfl | hx
        · exact ⟨hkeep.1, by simp, keepSpec_not_mem kept x hkeep⟩
        · obtain ⟨hu, hmem, hnk⟩ := (ih (kept ++ [a]) hcf' x).mp hx
          refine ⟨hu, List.mem_cons_of_mem a hmem, ?_⟩
          intro habs
          exact hnk (List.mem_append.mpr (Or.inl habs))
      · rintro ⟨hu, hmem, hnk⟩
        rcases List.mem_cons.mp hmem with rfl | hmem
        · exact List.mem_cons_self _ _
        · by_cases hxa : x = a
          · exact hxa ▸ List.mem_cons_self _ _
          · refine List.mem_cons_of_mem a ((ih (kept ++ [a]) hcf' x).mpr ⟨hu, hmem, ?_⟩)
            intro habs
            rcases List.mem_append.mp habs with habs | habs
            · exact hnk habs
            · exact hxa (by simpa using habs)
    · rename_i hkeep
      rw [ih kept hcfr x]
      constructor
      · rintro ⟨hu, hmem, hnk⟩
        exact ⟨hu, List.mem_cons_of_mem a hmem, hnk⟩
      · rintro ⟨hu, hmem, hnk⟩
        rcases List.mem_cons.mp hmem with rfl | hmem
        · exact absurd (not_keepSpec_mem_kept kept x rest hcf hu hkeep) hnk
        · exact ⟨hu, hmem, hnk⟩

theorem mem_dedupJobsMafAux (l : List Job) :
    ∀ seen j, j ∈ dedupJobsMafAux seen l →
    jobTitleKey j ≠ "" ∧ jobCompanyKey j ≠ "" := by
  induction l with
  | nil => intro seen j hj; simp [dedupJobsMafAux] at hj
  | cons x rest ih =>
    intro seen j hj
    simp only [dedupJobsMafAux] at hj
    split at hj
    · rename_i hc
      rcases List.mem_cons.mp hj with rfl | hj
      · exact ⟨hc.2.1, hc.2.2⟩
      · exact ih _ j hj
    · exact ih seen j hj

/-- An article dict carrying only a url and a title. -/
def mkArticle (u t : Option String) : Article := ⟨u, t, none, none, none, none⟩

/-- A job dict carrying only a title and a company. -/
def mkJob (t c : Option String) : Job := ⟨none, t, c, none, none⟩

/-- A 101-word description string. -/
def longDescription : String := pyJoinSpace (List.replicate 101 "w")

/-- C1: for every external-call outcome, every category list the classifier
returns (route_categories of news and news_maf, classify_query of news_maf)
is non-empty with every element in the fixed vocabulary CATEGORIES, and
whenever zero valid labels are recoverable from the external response the
returned list is exactly ["general"]. -/
theorem claim_C1_classifier_closure :
    (∀ (r : RouterCall) (ys : List String), route_categories r = Except.ok ys →
      ys ≠ [] ∧ (∀ c ∈ ys, c ∈ CATEGORIES) ∧
        (routerRecoverable r = [] → ys = ["general"])) ∧
    (∀ (r : ClassifierCall) (ys : List String), classify_query r = Except.ok ys →
      ys ≠ [] ∧ (∀ c ∈ ys, c ∈ CATEGORIES) ∧
        (classifierRecoverable r = [] → ys = ["general"])) := by
  constructor
  · intro r ys hr
    cases r with
    | raise e => exact absurd hr (by simp [route_categories])
    | unparsable =>
      have : ys = ["general"] := by
        simpa [route_categories] using hr.symm
      subst this
      exact ⟨by simp, by intro c hc; simp at hc; subst hc; decide, fun _ => rfl⟩
    | parsed j =>
      simp only [route_categories, Except.ok.injEq] at hr
      by_cases he : (routeValidTargets j).isEmpty
      · rw [if_pos he] at hr
        subst hr
        exact ⟨by simp, by intro c hc; simp at hc; subst hc; decide, fun _ => rfl⟩
      · rw [if_neg he] at hr
        subst hr
        refine ⟨by simpa [List.isEmpty_iff] using he, routeValidTargets_subset j, ?_⟩
        intro hrec
        exact absurd (by simpa [List.isEmpty_iff] using hrec : (routeValidTargets j).isEmpty)
          he
  · intro r ys hr
    cases r with
    | raise e =>
      have : ys = ["general"] := by simpa [classify_query] using hr.symm
      subst this
      exact ⟨by simp, by intro c hc; simp at hc; subst hc; decide, fun _ => rfl⟩
    | emptyText =>
      have : ys = ["general"] := by simpa [classify_query] using hr.symm
      subst this
      exact ⟨by simp, by intro c hc; simp at hc; subst hc; decide, fun _ => rfl⟩
    | unparsable =>
      have : ys = ["general"] := by simpa [classify_query] using hr.symm
      subst this
      exact ⟨by simp, by intro c hc; simp at hc; subst hc; decide, fun _ => rfl⟩
    | parsed j =>
      simp only [classify_query, Except.ok.injEq] at hr
      by_cases he : (classifyValid j).isEmpty
      · rw [if_pos he] at hr
        subst hr
        exact ⟨by simp, by intro c hc; simp at hc; subst hc; decide, fun _ => rfl⟩
      · rw [if_neg he] at hr
        subst hr
        refine ⟨by simpa [List.isEmpty_iff] using he, classifyValid_subset j, ?_⟩
        intro hrec
        exact absurd (by simpa [List.isEmpty_iff] using hrec : (classifyValid j).isEmpty) he

/-- Witness for C1 at the concrete outcome of an unparsable response. -/
theorem claim_C1_classifier_closure_witness :
    route_categories RouterCall.unparsable = Except.ok ["general"] ∧
    classify_query ClassifierCall.unparsable = Except.ok ["general"] ∧
    ["general"] ≠ ([] : List String) ∧ "general" ∈ CATEGORIES :=
  ⟨rfl, rfl,
    (claim_C1_classifier_closure.1 RouterCall.unparsable ["general"] rfl).1,
    (claim_C1_classifier_closure.1 RouterCall.unparsable ["general"] rfl).2.1 "general"
      (by simp)⟩

/-- C2 counterexample: in
`[{url u, title a}, {url u, title b}, {url v, title b}]` the first
occurrence of the duplicate title key "b" (the second record, dropped for
its seen URL) is NOT retained, while the subsequent occurrence (the third
record) IS kept — `dedup_articles` registers the keys of kept records only,
so "the first occurrence of a duplicate key is retained and all subsequent
ones dropped" fails as stated. -/
theorem claim_C2_counterexample :
    dedup_articles [mkArticle (some "u") (some "a"), mkArticle (some "u") (some "b"),
        mkArticle (some "v") (some "b")]
      = [mkArticle (some "u") (some "a"), mkArticle (some "v") (some "b")] ∧
    titleKey (mkArticle (some "u") (some "b")) = titleKey (mkArticle (some "v") (some "b")) ∧
    titleKey (mkArticle (some "u") (some "b")) ≠ "" := by
  refine ⟨by decide, by decide, by decide⟩

/-- C2 (amended): `dedup_articles` is a stable filter — its output is a
subsequence of the input with records unmodified — and it keeps a record iff
the record has a non-empty URL key or non-empty title key and neither
non-empty key is borne by an ALREADY-KEPT record (`dedupSpec`); a record
dropped over one key does not register its other key as seen. -/
theorem claim_C2_stable_filter : ∀ l : List Article,
    List.Sublist (dedup_articles l) l ∧ dedup_articles l = dedupSpec l :=
  fun l => ⟨dedupAux_sublist [] [] l, dedup_eq_spec l⟩

/-- C3: all three deduplication helpers are idempotent: dedup_articles
(news), deduplicate_jobs (job_recommendation_maf) and deduplicate_jobs
(job_recommendation) each satisfy dedup(dedup(x)) = dedup(x). -/
theorem claim_C3_dedup_idempotent :
    (∀ l : List Article, dedup_articles (dedup_articles l) = dedup_articles l) ∧
    (∀ jobs : List Job,
      deduplicate_jobs_maf (deduplicate_jobs_maf jobs) = deduplicate_jobs_maf jobs) ∧
    (∀ jobs : List Job,
      deduplicate_jobs_jr (deduplicate_jobs_jr jobs) = deduplicate_jobs_jr jobs) :=
  ⟨fun l => dedupAux_of_goodOut [] [] _ (goodOut_dedupAux [] [] l),
   fun jobs => dedupJobsMafAux_of_good [] _ (goodJobsMaf_dedupJobsMafAux [] jobs),
   fun jobs => dedupJobsJRAux_of_good [] _ (goodJobsJR_dedupJobsJRAux [] jobs)⟩

/-- C4: fault isolation — when one category's fetch raises or returns a
malformed payload while every other category returns a well-formed record
list, the deduplicated aggregate equals the one computed from the other
categories alone, and the failing category contributes zero records; this
holds for the pro orchestrator's merge, the sequential news_maf
orchestrator, and the concurrent news_maf parse step. -/
theorem claim_C4_fault_isolation :
    (∀ (pre post : List FetchOutcome) (bad : FetchOutcome),
      isFailedFetch bad → (∀ r ∈ pre ++ post, isWellFormedFetch r) →
      proAggregate (pre ++ bad :: post) = proAggregate (pre ++ post) ∧
        proContrib bad = []) ∧
    (∀ (pre post : List (String × FetchOutcome)) (c : String) (bad : FetchOutcome),
      isFailedFetch bad → (∀ ce ∈ pre ++ post, isWellFormedFetch ce.2) →
      seqAggregate (pre ++ (c, bad) :: post) = seqAggregate (pre ++ post) ∧
        seqFetchCategoryArticles c bad = []) ∧
    (∀ c e : String, mafConcParseArticles c Payload.badJson = [] ∧
      mafConcParseArticles c (Payload.errorObj e) = [] ∧
      mafConcParseArticles c Payload.nonList = []) := by
  refine ⟨?_, ?_, ?_⟩
  · intro pre post bad hbad _
    have hc : proContrib bad = [] := proContrib_of_failed bad hbad
    refine ⟨?_, hc⟩
    unfold proAggregate proAllArticles
    simp [hc]
  · intro pre post c bad hbad _
    have hc : seqFetchCategoryArticles c bad = [] := seqFetch_of_failed c bad hbad
    refine ⟨?_, hc⟩
    unfold seqAggregate seqAllArticles
    simp [hc]
  · intro c e
    exact ⟨rfl, rfl, rfl⟩

/-- Witness for C4 at a concrete fetch set: one successful category and one
raising category. -/
theorem claim_C4_fault_isolation_witness :
    isFailedFetch (FetchOutcome.raise "timeout") ∧
    proAggregate ([FetchOutcome.payload (Payload.list [mkArticle (some "u") (some "a")])]
        ++ FetchOutcome.raise "timeout" :: []) =
      proAggregate ([FetchOutcome.payload (Payload.list [mkArticle (some "u") (some "a")])]
        ++ []) ∧
    proContrib (FetchOutcome.raise "timeout") = [] :=
  ⟨trivial,
    (claim_C4_fault_isolation.1
      [FetchOutcome.payload (Payload.list [mkArticle (some "u") (some "a")])] []
      (FetchOutcome.raise "timeout") trivial
      (by
        intro r hr
        simp only [List.append_nil, List.mem_singleton] at hr
        exact ⟨_, hr⟩)).1,
    (claim_C4_fault_isolation.1
      [FetchOutcome.payload (Payload.list [mkArticle (some "u") (some "a")])] []
      (FetchOutcome.raise "timeout") trivial
      (by
        intro r hr
        simp only [List.append_nil, List.mem_singleton] at hr
        exact ⟨_, hr⟩)).2⟩

/-- C5 counterexample: when the external text-generation call raises, both
route_categories variants propagate the exception to the caller (the call
sits outside the `try`), so "never propagates" fails as stated. -/
theorem claim_C5_counterexample :
    route_categories (RouterCall.raise "boom") = Except.error "boom" ∧
    (route_categories (RouterCall.raise "boom")).isOk = false :=
  ⟨rfl, rfl⟩

/-- C5 (amended): classify_query catches every exception — from the
external call as well as from parsing — and always returns normally; in the
route_categories variants only the parse step is guarded, so a parse
failure falls back to ["general"] but an exception from the external
text-generation call itself propagates to the caller. -/
theorem claim_C5_exception_handling :
    (∀ r : ClassifierCall, (classify_query r).isOk = true) ∧
    (∀ e : String, route_categories (RouterCall.raise e) = Except.error e) ∧
    (route_categories RouterCall.unparsable).isOk = true ∧
    (∀ j : Json, (route_categories (RouterCall.parsed j)).isOk = true) := by
  refine ⟨?_, fun e => rfl, rfl, fun j => rfl⟩
  intro r
  cases r with
  | raise e => rfl
  | emptyText => rfl
  | unparsable => rfl
  | parsed j => rfl

/-- C6: whenever the deduplicated record list reaching the summarization
stage is empty, each orchestrator run returns the fixed "No articles
found." sentinel with ZERO summarizer invocations (second component),
regardless of the summarizer collaborator. -/
theorem claim_C6_empty_shortcircuit :
    (∀ (targets : List String) (results : List FetchOutcome)
        (summ : String → String) (dumps : List Article → String)
        (hostOf : Option String → String),
      dedup_articles (proAllArticles results) = [] →
      proRun targets results summ dumps hostOf = ("No articles found.", 0)) ∧
    (∀ (categories : List String) (fetch : String → FetchOutcome)
        (summarizerCall : Except String String), categories ≠ [] →
      dedup_articles (seqAllArticles (categories.map (fun c => (c, fetch c)))) = [] →
      seqRun categories fetch summarizerCall = ("No articles found.", 0)) ∧
    (∀ (categories : List String) (results : List Payload)
        (summ : String → String) (dumps : List Article → String),
      dedup_articles ((results.map concParse).flatten) = [] →
      concRun categories results summ dumps = ("No articles found.", 0)) := by
  refine ⟨?_, ?_, ?_⟩
  · intro targets results summ dumps hostOf h
    simp [proRun, h]
  · intro categories fetch summarizerCall hne h
    unfold seqRun
    rw [if_neg (by simpa [List.isEmpty_iff] using hne)]
    simp [h]
  · intro categories results summ dumps h
    simp [concRun, h]

/-- Witness for C6 with no fetched results. -/
theorem claim_C6_empty_shortcircuit_witness :
    dedup_articles (proAllArticles []) = [] ∧
    proRun [] [] (fun p => p) (fun _ => "") (fun _ => "") = ("No articles found.", 0) :=
  ⟨rfl, claim_C6_empty_shortcircuit.1 [] [] (fun p => p) (fun _ => "") (fun _ => "") rfl⟩

/-- C7 counterexample: the news plugin's fetch_top_headlines builds its
record with the description passed through unchanged, even when it has more
than 100 words — the truncation exists only in the two job-board plugins,
so "in every Fetcher" fails as stated. -/
theorem claim_C7_counterexample :
    100 < (pySplit longDescription).length ∧
    (fetch_top_headlines_record ⟨none, none, none, none, some longDescription⟩).description
      = some longDescription :=
  ⟨by decide, rfl⟩

/-- C7 (amended): both job-board plugins truncate a description of more
than 100 words to the first 100 words joined by single spaces with "..."
appended (and pass shorter ones through unchanged), so their descriptions
are bounded by 100 words; the news plugin's fetch_top_headlines passes the
description through unchanged, with no truncation. -/
theorem claim_C7_truncation :
    (∀ job : RawJob, (search_jobs_record_maf job).description
        = some (truncDesc (job.description.getD ""))) ∧
    (∀ job : RawJob, (search_jobs_record_jr job).description
        = some (truncDesc (job.description.getD ""))) ∧
    (∀ d : String, 100 < (pySplit d).length →
      truncDesc d = pyJoinSpace ((pySplit d).take 100) ++ "..." ∧
      (pySplit (truncDesc d)).length = 100) ∧
    (∀ d : String, (pySplit d).length ≤ 100 → truncDesc d = d) ∧
    (∀ a : RawArticle, (fetch_top_headlines_record a).description = a.description) := by
  refine ⟨fun job => rfl, fun job => rfl, ?_, ?_, fun a => rfl⟩
  · intro d h
    have heq : truncDesc d = pyJoinSpace ((pySplit d).take 100) ++ "..." := by
      rw [truncDesc]
      exact if_pos h
    refine ⟨heq, ?_⟩
    rw [heq]
    have hdata : (pyJoinSpace ((pySplit d).take 100) ++ "...").data
        = pyJoinChars ((pyWords d.data).take 100) ++ ['.', '.', '.'] := by
      rw [String.data_append]
      congr 1
      show pyJoinChars (((pySplit d).take 100).map String.data) = _
      congr 1
      rw [pySplit, ← List.map_take, List.map_map]
      have hid : (String.data ∘ fun w : List Char => String.mk w) = id :=
        funext (fun w => rfl)
      rw [hid, List.map_id]
    rw [show (pySplit (pyJoinSpace ((pySplit d).take 100) ++ "...")).length
        = (pyWords (pyJoinSpace ((pySplit d).take 100) ++ "...").data).length from by
      simp [pySplit]]
    rw [hdata]
    rw [pyWords_join_append_length ((pyWords d.data).take 100) ['.', '.', '.']
      (by
        have : ((pyWords d.data).take 100).length = 100 := by
          rw [List.length_take]
          have : 100 < (pyWords d.data).length := by
            simpa [pySplit] using h
          omega
        intro habs
        rw [habs] at this
        simp at this)
      (fun w hw => pyWords_sound d.data w (List.mem_of_mem_take hw))
      (by decide)]
    rw [List.length_take]
    have : 100 < (pyWords d.data).length := by simpa [pySplit] using h
    omega
  · intro d h
    rw [truncDesc]
    exact if_neg (by omega)

/-- Witness for C7's truncation bound at the concrete 101-word description. -/
theorem claim_C7_truncation_witness :
    100 < (pySplit longDescription).length ∧
    (pySplit (truncDesc longDescription)).length = 100 :=
  ⟨by decide, (claim_C7_truncation.2.2.1 longDescription (by decide)).2⟩

/-- C8 counterexample: two singleton per-category lists whose records share
a URL but differ in title — permuting the lists changes WHICH record
survives deduplication, so the aggregated content (as a set or multiset of
records) is not order-invariant as stated. -/
theorem claim_C8_counterexample :
    dedup_articles ([[mkArticle (some "u") (some "a")],
        [mkArticle (some "u") (some "b")]] : List (List Article)).flatten
      = [mkArticle (some "u") (some "a")] ∧
    dedup_articles ([[mkArticle (some "u") (some "b")],
        [mkArticle (some "u") (some "a")]] : List (List Article)).flatten
      = [mkArticle (some "u") (some "b")] ∧
    mkArticle (some "u") (some "a") ≠ mkArticle (some "u") (some "b") :=
  ⟨by decide, by decide, by decide⟩

/-- C8 (amended): provided any two records of the collection that share a
non-empty URL key or a non-empty title key are identical records, the
content of dedup_articles over the concatenation is invariant (up to order,
i.e. as a multiset) under any permutation of the per-category lists. -/
theorem claim_C8_order_invariance :
    ∀ colls colls' : List (List Article), colls.Perm colls' →
    (∀ x ∈ colls.flatten, ∀ y ∈ colls.flatten, keyCollide x y → x = y) →
    (dedup_articles colls.flatten).Perm (dedup_articles colls'.flatten) := by
  intro colls colls' hp hcf
  have hfl : colls.flatten.Perm colls'.flatten := hp.flatten
  have hcf' : ∀ x ∈ colls'.flatten, ∀ y ∈ colls'.flatten, keyCollide x y → x = y := by
    intro x hx y hy
    exact hcf x (hfl.mem_iff.mpr hx) y (hfl.mem_iff.mpr hy)
  rw [dedup_eq_spec, dedup_eq_spec]
  unfold dedupSpec
  refine (List.perm_ext_iff_of_nodup (dedupSpecAux_nodup _ [])
    (dedupSpecAux_nodup _ [])).mpr ?_
  intro a
  have h1 := mem_dedupSpecAux colls.flatten [] (by simpa using hcf) a
  have h2 := mem_dedupSpecAux colls'.flatten [] (by simpa using hcf') a
  rw [h1, h2]
  simp [hfl.mem_iff]

/-- Witness for C8 at two swapped singleton lists with disjoint keys. -/
theorem claim_C8_order_invariance_witness :
    ([[mkArticle (some "u") (some "a")], [mkArticle (some "v") (some "b")]] :
      List (List Article)).Perm
      [[mkArticle (some "v") (some "b")], [mkArticle (some "u") (some "a")]] ∧
    (dedup_articles ([[mkArticle (some "u") (some "a")],
        [mkArticle (some "v") (some "b")]] : List (List Article)).flatten).Perm
      (dedup_articles ([[mkArticle (some "v") (some "b")],
        [mkArticle (some "u") (some "a")]] : List (List Article)).flatten) :=
  ⟨List.Perm.swap _ _ _,
    claim_C8_order_invariance _ _ (List.Perm.swap _ _ _) (by decide)⟩

/-- C9 counterexample: with the API-key environment variable unset, the
news plugin's fetch_top_headlines and the job_recommendation plugin's
search_jobs RAISE ValueError instead of returning an error object, so
"every category-search collaborator ... never terminates in an unhandled
exception" fails as stated. -/
theorem claim_C9_counterexample :
    fetch_top_headlines none (Except.ok []) 6 = Except.error "NEWSAPI_API_KEY not set." ∧
    search_jobs_jr none (Except.ok []) = Except.error "SERPAPI_API_KEY not set." :=
  ⟨rfl, rfl⟩

/-- C9 (amended): on a missing API key, only the job_recommendation_maf
search_jobs returns an explicit error JSON without raising; the news
fetch_top_headlines and the job_recommendation search_jobs raise ValueError
(before their try blocks), whatever the network collaborator would do. -/
theorem claim_C9_missing_key :
    (∀ net : Except String (List RawJob),
      search_jobs_maf none net = Except.ok (PluginResult.errorJson "SERPAPI_API_KEY not set")) ∧
    (∀ (net : Except String (List RawArticle)) (limit : Nat),
      fetch_top_headlines none net limit = Except.error "NEWSAPI_API_KEY not set.") ∧
    (∀ net : Except String (List RawJob),
      search_jobs_jr none net = Except.error "SERPAPI_API_KEY not set.") :=
  ⟨fun _ => rfl, fun _ _ => rfl, fun _ => rfl⟩

/-- C10: every job in the output of job_recommendation_maf's
deduplicate_jobs has a non-empty lowercased trimmed title and company;
equivalently, a job with an empty (or missing) normalized title or company
is excluded even when it has no duplicate in the list. -/
theorem claim_C10_jobs_nonempty_fields :
    (∀ (jobs : List Job) (j : Job), j ∈ deduplicate_jobs_maf jobs →
      jobTitleKey j ≠ "" ∧ jobCompanyKey j ≠ "") ∧
    (∀ (jobs : List Job) (j : Job), jobTitleKey j = "" ∨ jobCompanyKey j = "" →
      j ∉ deduplicate_jobs_maf jobs) := by
  constructor
  · intro jobs j hj
    exact mem_dedupJobsMafAux jobs [] j hj
  · intro jobs j hkey hj
    obtain ⟨ht, hc⟩ := mem_dedupJobsMafAux jobs [] j hj
    rcases hkey with h | h
    · exact ht h
    · exact hc h

/-- Witness for C10 at a concrete singleton job list. -/
theorem claim_C10_jobs_nonempty_fields_witness :
    mkJob (some "a") (some "b") ∈ deduplicate_jobs_maf [mkJob (some "a") (some "b")] ∧
    jobTitleKey (mkJob (some "a") (some "b")) ≠ "" ∧
    jobCompanyKey (mkJob (some "a") (some "b")) ≠ "" :=
  ⟨by decide,
    (claim_C10_jobs_nonempty_fields.1 [mkJob (some "a") (some "b")]
      (mkJob (some "a") (some "b")) (by decide)).1,
    (claim_C10_jobs_nonempty_fields.1 [mkJob (some "a") (some "b")]
      (mkJob (some "a") (some "b")) (by decide)).2⟩

end A2A
